import Mathlib

/-!
Verification of the Verseword / Wordibble puzzle-game engine.

The definitions below are a shallow embedding of the game code:
the `Game` component (guess submission, lifeline reveal, keyboard letter
states, puzzle-state persistence) and the `loadDailyPuzzle` loader.
Words are modelled as `List Char`, JS objects keyed by numeric positions
as association lists `List (Nat × Char)` in ascending-key iteration order
(matching JS iteration order of integer-like object keys), and JS `Set`s
of numbers as duplicate-free `List Nat` in insertion order.
-/

namespace Verseword

/-- Per-position result of scoring a guess letter against the secret. -/
inductive LetterStatus where
  | correct
  | present
  | absent
deriving DecidableEq, Repr

/-- The game status field: `playing`, `won` or `lost`. -/
inductive GameStatus where
  | playing
  | won
  | lost
deriving DecidableEq, Repr

/-! ### GuessEvaluator

Modelled from the spec: `evaluate(guess, secret)` lives in `lib/gameLogic`,
which is not among the sources; only its call sites are.  The spec
describes it as a two-pass scorer: pass 1 marks `correct` where letters
match at the same position, removing those letters from a pool seeded from
the secret's multiset; pass 2 marks the remaining positions `present`
while the guessed letter still has pool count > 0 (decrementing it),
else `absent`.  Case-normalisation is a no-op here because the engine
always passes upper-cased words. -/

/-- The letter pool remaining after pass 1: the secret letters at
positions that were not exact matches. -/
def initialPool (ps : List (Char × Char)) : List Char :=
  ps.filterMap (fun p => if p.1 = p.2 then none else some p.2)

/-- Pass over the zipped guess/secret pairs with the pass-1 pool:
`correct` on an exact match, `present` while the pool still holds the
guessed letter (removing one occurrence), `absent` otherwise. -/
def evalPass (ps : List (Char × Char)) (pool : List Char) : List LetterStatus :=
  match ps with
  | [] => []
  | (g, s) :: rest =>
    if g = s then LetterStatus.correct :: evalPass rest pool
    else if 0 < pool.count g then LetterStatus.present :: evalPass rest (pool.erase g)
    else LetterStatus.absent :: evalPass rest pool

/-- Modelled from the spec: duplicate-letter-safe guess scoring. -/
def evaluateGuess (guess secret : List Char) : List LetterStatus :=
  let ps := guess.zip secret
  evalPass ps (initialPool ps)

/-- The guess letters paired with their evaluation against the secret. -/
def guessScore (guess secret : List Char) : List (Char × LetterStatus) :=
  guess.zip (evaluateGuess guess secret)

/-- How many occurrences of letter `c` in the guess received status `st`. -/
def statusCount (guess secret : List Char) (c : Char) (st : LetterStatus) : Nat :=
  (guessScore guess secret).countP (fun p => decide (p.1 = c) && decide (p.2 = st))

example : evaluateGuess "CRANE".toList "CRANE".toList =
    [.correct, .correct, .correct, .correct, .correct] := by decide

example : evaluateGuess "ERASE".toList "SPEED".toList =
    [.present, .absent, .absent, .present, .present] := by decide

example : statusCount "ERASE".toList "SPEED".toList 'E' .present = 2 := by decide

/-! ### Counting lemmas for the evaluator -/

theorem evalPass_length (ps : List (Char × Char)) (pool : List Char) :
    (evalPass ps pool).length = ps.length := by
  induction ps generalizing pool with
  | nil => rfl
  | cons p rest ih =>
    obtain ⟨g, s⟩ := p
    by_cases hgs : g = s
    · simp [evalPass, hgs, ih]
    · by_cases hpool : 0 < pool.count g
      · simp [evalPass, hgs, hpool, ih]
      · simp [evalPass, hgs, hpool, ih]

/-- During the pool pass, letter `c` is handed out as `present` at most as
many times as the pool holds it. -/
theorem evalPass_present_le (ps : List (Char × Char)) (pool : List Char) (c : Char) :
    ((ps.map Prod.fst).zip (evalPass ps pool)).countP
      (fun p => decide (p.1 = c) && decide (p.2 = LetterStatus.present)) ≤ pool.count c := by
  induction ps generalizing pool with
  | nil => simp [evalPass]
  | cons p rest ih =>
    obtain ⟨g, s⟩ := p
    by_cases hgs : g = s
    · have h1 := ih pool
      simp only [evalPass, if_pos hgs, List.map_cons, List.zip_cons_cons, List.countP_cons,
        Bool.and_eq_true, decide_eq_true_eq]
      rw [if_neg (fun h => LetterStatus.noConfusion h.2)]
      omega
    · by_cases hpool : 0 < pool.count g
      · by_cases hgc : g = c
        · subst hgc
          have h1 := ih (pool.erase g)
          have h2 : (pool.erase g).count g = pool.count g - 1 := List.count_erase_self g pool
          simp only [evalPass, if_neg hgs, if_pos hpool, List.map_cons, List.zip_cons_cons,
            List.countP_cons, Bool.and_eq_true, decide_eq_true_eq]
          split <;> omega
        · have h1 := ih (pool.erase g)
          have h2 : (pool.erase g).count c = pool.count c :=
            List.count_erase_of_ne (fun h => hgc h.symm) pool
          simp only [evalPass, if_neg hgs, if_pos hpool, List.map_cons, List.zip_cons_cons,
            List.countP_cons, Bool.and_eq_true, decide_eq_true_eq]
          rw [if_neg (fun h => hgc h.1)]
          omega
      · have h1 := ih pool
        simp only [evalPass, if_neg hgs, if_neg hpool, List.map_cons, List.zip_cons_cons,
          List.countP_cons, Bool.and_eq_true, decide_eq_true_eq]
        rw [if_neg (fun h => LetterStatus.noConfusion h.2)]
        omega

/-- The pool pass assigns `correct` exactly at the exact-match positions. -/
theorem evalPass_correct_count (ps : List (Char × Char)) (pool : List Char) (c : Char) :
    ((ps.map Prod.fst).zip (evalPass ps pool)).countP
      (fun p => decide (p.1 = c) && decide (p.2 = LetterStatus.correct))
    = ps.countP (fun p => decide (p.1 = c) && decide (p.1 = p.2)) := by
  induction ps generalizing pool with
  | nil => simp [evalPass]
  | cons p rest ih =>
    obtain ⟨g, s⟩ := p
    by_cases hgs : g = s
    · simp only [evalPass, if_pos hgs, List.map_cons, List.zip_cons_cons, List.countP_cons,
        Bool.and_eq_true, decide_eq_true_eq]
      rw [ih pool]
      by_cases hgc : g = c
      · rw [if_pos ⟨hgc, trivial⟩, if_pos ⟨hgc, hgs⟩]
      · rw [if_neg (fun h => hgc h.1), if_neg (fun h => hgc h.1)]
    · by_cases hpool : 0 < pool.count g
      · simp only [evalPass, if_neg hgs, if_pos hpool, List.map_cons, List.zip_cons_cons,
          List.countP_cons, Bool.and_eq_true, decide_eq_true_eq]
        rw [ih (pool.erase g)]
        rw [if_neg (fun h => LetterStatus.noConfusion h.2), if_neg (fun h => hgs h.2)]
      · simp only [evalPass, if_neg hgs, if_neg hpool, List.map_cons, List.zip_cons_cons,
          List.countP_cons, Bool.and_eq_true, decide_eq_true_eq]
        rw [ih pool]
        rw [if_neg (fun h => LetterStatus.noConfusion h.2), if_neg (fun h => hgs h.2)]

/-- The initial pool holds exactly the secret letters at non-exact positions. -/
theorem initialPool_count (ps : List (Char × Char)) (c : Char) :
    (initialPool ps).count c
      = ps.countP (fun p => decide (p.2 = c) && !decide (p.1 = p.2)) := by
  induction ps with
  | nil => rfl
  | cons p rest ih =>
    obtain ⟨g, s⟩ := p
    by_cases hgs : g = s
    · subst hgs
      have hstep : initialPool ((g, g) :: rest) = initialPool rest := by
        simp [initialPool, List.filterMap_cons]
      rw [hstep, ih, List.countP_cons]
      simp
    · have hstep : initialPool ((g, s) :: rest) = s :: initialPool rest := by
        simp [initialPool, List.filterMap_cons, hgs]
      rw [hstep, List.count_cons, ih, List.countP_cons]
      by_cases hsc : s = c
      · subst hsc
        simp [hgs]
      · simp [hsc]

theorem countP_and_split (l : List α) (p q : α → Bool) :
    l.countP (fun a => p a && q a) + l.countP (fun a => p a && !q a) = l.countP p := by
  induction l with
  | nil => rfl
  | cons a rest ih =>
    simp only [List.countP_cons]
    cases hp : p a <;> cases hq : q a <;> simp [hp, hq] <;> omega

theorem secret_count_eq (guess secret : List Char) (h : guess.length = secret.length)
    (c : Char) :
    secret.count c = (guess.zip secret).countP (fun p => decide (p.2 = c)) := by
  conv_lhs => rw [← List.map_snd_zip guess secret (le_of_eq h.symm)]
  rw [List.count_eq_countP, List.countP_map]
  apply List.countP_congr
  intro x _
  simp [Function.comp, beq_iff_eq]

/-- C2: for equal-length secret `S` and guess `G`, `evaluate(G,S)` never marks
more `correct`+`present` occurrences of a letter than its multiplicity in
`S`, and a repeated guessed letter is `present` only as many times as the
letter remains in the secret once the same-position `correct` matches are
removed. -/
theorem claim_C2_duplicate_safe (guess secret : List Char)
    (h : guess.length = secret.length) (c : Char) :
    statusCount guess secret c .correct + statusCount guess secret c .present
        ≤ secret.count c
    ∧ statusCount guess secret c .present
        ≤ secret.count c - statusCount guess secret c .correct := by
  have hfst : (guess.zip secret).map Prod.fst = guess :=
    List.map_fst_zip _ _ (le_of_eq h)
  have hgs : guessScore guess secret
      = ((guess.zip secret).map Prod.fst).zip
          (evalPass (guess.zip secret) (initialPool (guess.zip secret))) := by
    rw [guessScore, evaluateGuess, hfst]
  have hcorr : statusCount guess secret c .correct
      = (guess.zip secret).countP (fun p => decide (p.1 = c) && decide (p.1 = p.2)) := by
    simp only [statusCount]
    rw [hgs, evalPass_correct_count]
  have hcorr2 : (guess.zip secret).countP (fun p => decide (p.1 = c) && decide (p.1 = p.2))
      = (guess.zip secret).countP (fun p => decide (p.2 = c) && decide (p.1 = p.2)) := by
    apply List.countP_congr
    intro x _
    simp only [Bool.and_eq_true, decide_eq_true_eq]
    constructor
    · rintro ⟨h1, h2⟩
      exact ⟨h2 ▸ h1, h2⟩
    · rintro ⟨h1, h2⟩
      exact ⟨h2.trans h1, h2⟩
  have hpres : statusCount guess secret c .present
      ≤ (initialPool (guess.zip secret)).count c := by
    simp only [statusCount]
    rw [hgs]
    exact evalPass_present_le (guess.zip secret) (initialPool (guess.zip secret)) c
  have hpool := initialPool_count (guess.zip secret) c
  have hsplit := countP_and_split (guess.zip secret)
    (fun p => decide (p.2 = c)) (fun p => decide (p.1 = p.2))
  simp only at hsplit
  have hsec := secret_count_eq guess secret h c
  constructor <;> omega

/-- Witness for C2 at the spec's own example: secret `SPEED`, guess `ERASE`,
letter `E` (the secret holds two `E`s, the guess three). -/
theorem claim_C2_duplicate_safe_witness :
    "ERASE".toList.length = "SPEED".toList.length
    ∧ statusCount "ERASE".toList "SPEED".toList 'E' .correct
        + statusCount "ERASE".toList "SPEED".toList 'E' .present
        ≤ "SPEED".toList.count 'E'
    ∧ statusCount "ERASE".toList "SPEED".toList 'E' .present
        ≤ "SPEED".toList.count 'E'
          - statusCount "ERASE".toList "SPEED".toList 'E' .correct :=
  ⟨by decide,
   (claim_C2_duplicate_safe "ERASE".toList "SPEED".toList (by decide) 'E').1,
   (claim_C2_duplicate_safe "ERASE".toList "SPEED".toList (by decide) 'E').2⟩

/-! ### JS objects keyed by positions

`lockedLetters` is a JS object `Record<number, string>`.  We model it as an
association list `List (Nat × Char)` kept in JS iteration order: assigning
to an existing key replaces its value in place, assigning a fresh integer
key inserts it at its ascending-numeric position (JS iterates integer-like
keys in ascending order). -/

/-- Replace the value stored at an existing key, in place. -/
def setKey : List (Nat × Char) → Nat → Char → List (Nat × Char)
  | [], k, v => [(k, v)]
  | (k', v') :: rest, k, v =>
    if k = k' then (k, v) :: rest else (k', v') :: setKey rest k v

/-- Insert a fresh key at its ascending-numeric position. -/
def addKey : List (Nat × Char) → Nat → Char → List (Nat × Char)
  | [], k, v => [(k, v)]
  | (k', v') :: rest, k, v =>
    if k < k' then (k, v) :: (k', v') :: rest else (k', v') :: addKey rest k v

/-- JS object assignment `obj[k] = v`. -/
def objInsert (l : List (Nat × Char)) (k : Nat) (v : Char) : List (Nat × Char) :=
  if (l.lookup k).isSome then setKey l k v else addKey l k v

theorem lookup_cons_ne {β : Type} (k a : Nat) (b : β) (es : List (Nat × β)) (h : a ≠ k) :
    ((k, b) :: es).lookup a = es.lookup a := by
  rw [List.lookup_cons, beq_false_of_ne h]

theorem lookup_setKey_self (l : List (Nat × Char)) (k : Nat) (v : Char) :
    (setKey l k v).lookup k = some v := by
  induction l with
  | nil => simp [setKey]
  | cons p rest ih =>
    obtain ⟨k', v'⟩ := p
    by_cases hk : k = k'
    · simp [setKey, hk]
    · rw [setKey, if_neg hk, lookup_cons_ne k' k v' _ hk]
      exact ih

theorem lookup_addKey_self (l : List (Nat × Char)) (k : Nat) (v : Char)
    (h : l.lookup k = none) : (addKey l k v).lookup k = some v := by
  induction l with
  | nil => simp [addKey]
  | cons p rest ih =>
    obtain ⟨k', v'⟩ := p
    by_cases hk' : k = k'
    · subst hk'
      simp at h
    · rw [lookup_cons_ne k' k v' rest hk'] at h
      by_cases hk : k < k'
      · simp [addKey, hk]
      · rw [addKey, if_neg hk, lookup_cons_ne k' k v' _ hk']
        exact ih h

theorem lookup_objInsert_self (l : List (Nat × Char)) (k : Nat) (v : Char) :
    (objInsert l k v).lookup k = some v := by
  rw [objInsert]
  split
  · exact lookup_setKey_self l k v
  · next h =>
    exact lookup_addKey_self l k v (Option.not_isSome_iff_eq_none.mp h)

theorem lookup_setKey_ne (l : List (Nat × Char)) (k i : Nat) (v : Char) (h : i ≠ k) :
    (setKey l k v).lookup i = l.lookup i := by
  induction l with
  | nil => simp [setKey, lookup_cons_ne k i v [] h]
  | cons p rest ih =>
    obtain ⟨k', v'⟩ := p
    by_cases hk : k = k'
    · subst hk
      rw [setKey, if_pos rfl, lookup_cons_ne k i v rest h, lookup_cons_ne k i v' rest h]
    · by_cases hik : i = k'
      · subst hik
        simp [setKey, hk]
      · rw [setKey, if_neg hk, lookup_cons_ne k' i v' _ hik, lookup_cons_ne k' i v' _ hik]
        exact ih

theorem lookup_addKey_ne (l : List (Nat × Char)) (k i : Nat) (v : Char) (h : i ≠ k) :
    (addKey l k v).lookup i = l.lookup i := by
  induction l with
  | nil => simp [addKey, lookup_cons_ne k i v [] h]
  | cons p rest ih =>
    obtain ⟨k', v'⟩ := p
    by_cases hk : k < k'
    · rw [addKey, if_pos hk, lookup_cons_ne k i v _ h]
    · by_cases hik : i = k'
      · subst hik
        simp [addKey, hk]
      · rw [addKey, if_neg hk, lookup_cons_ne k' i v' _ hik, lookup_cons_ne k' i v' _ hik]
        exact ih

theorem lookup_objInsert_ne (l : List (Nat × Char)) (k i : Nat) (v : Char) (h : i ≠ k) :
    (objInsert l k v).lookup i = l.lookup i := by
  rw [objInsert]
  split
  · exact lookup_setKey_ne l k i v h
  · exact lookup_addKey_ne l k i v h

theorem length_setKey (l : List (Nat × Char)) (k : Nat) (v : Char) :
    (setKey l k v).length = l.length ∨ (setKey l k v).length = l.length + 1 := by
  induction l with
  | nil => right; rfl
  | cons p rest ih =>
    obtain ⟨k', v'⟩ := p
    by_cases hk : k = k'
    · left
      simp [setKey, hk]
    · rw [setKey, if_neg hk]
      rcases ih with h | h
      · left
        simp [h]
      · right
        simp [h]

theorem length_addKey (l : List (Nat × Char)) (k : Nat) (v : Char) :
    (addKey l k v).length = l.length + 1 := by
  induction l with
  | nil => rfl
  | cons p rest ih =>
    obtain ⟨k', v'⟩ := p
    by_cases hk : k < k'
    · simp [addKey, hk]
    · simp [addKey, hk, ih]

theorem length_le_objInsert (l : List (Nat × Char)) (k : Nat) (v : Char) :
    l.length ≤ (objInsert l k v).length := by
  rw [objInsert]
  split
  · rcases length_setKey l k v with h | h <;> omega
  · rw [length_addKey]
    omega

theorem setKey_lookup_eq_self (l : List (Nat × Char)) (k : Nat) (v : Char)
    (h : l.lookup k = some v) : setKey l k v = l := by
  induction l with
  | nil => simp at h
  | cons p rest ih =>
    obtain ⟨k', v'⟩ := p
    by_cases hk : k = k'
    · subst hk
      rw [List.lookup_cons_self] at h
      cases h
      simp [setKey]
    · rw [lookup_cons_ne k' k v' rest hk] at h
      rw [setKey, if_neg hk, ih h]

/-- Re-assigning a key its current value leaves the object unchanged
(idempotent re-lock). -/
theorem objInsert_lookup_eq_self (l : List (Nat × Char)) (k : Nat) (v : Char)
    (h : l.lookup k = some v) : objInsert l k v = l := by
  rw [objInsert, h]
  simpa using setKey_lookup_eq_self l k v h

/-! ### Game state and guess submission (Game.tsx) -/

/-- The `GameState` record of `lib/types`, as held in the `gameState`
React state.  `revealedLetters` (a JS `Set<number>`) is a duplicate-free
list in insertion order; `letterRevealsRemaining` is an integer. -/
structure GameState where
  wordLength : Nat
  secretWord : List Char
  clue : Option String
  attempts : List (List Char)
  lockedLetters : List (Nat × Char)
  gameStatus : GameStatus
  attemptIndex : Nat
  revealedLetters : List Nat
  letterRevealsRemaining : Int
deriving DecidableEq, Repr

/-- The initial `useState` value of `gameState` (empty puzzle, one lifeline
reveal available). -/
def initGameState (wordLength : Nat) : GameState :=
  { wordLength := wordLength
    secretWord := []
    clue := none
    attempts := []
    lockedLetters := []
    gameStatus := .playing
    attemptIndex := 0
    revealedLetters := []
    letterRevealsRemaining := 1 }

/-- Modelled from the spec: `validateGuess` of `lib/gameLogic` is not among
the sources.  The spec says submission fails with IncompleteGuess when any
position is empty; since empty cells contribute nothing to the joined
guess string, a guess is complete exactly when it has full length. -/
def validateGuess (guess : List Char) (wordLength : Nat) : Bool :=
  guess.length == wordLength

/-- The cell contents of the active row: the locked letter wins at its
position, else the typed letter (`lockedLetters[i] ?? currentGuess[i] ?? ''`,
with `none` for an empty cell). -/
def completeCells (s : GameState) (currentGuess : List (Option Char)) : List (Option Char) :=
  (List.range s.wordLength).map (fun i => (s.lockedLetters.lookup i).or (currentGuess.getD i none))

/-- The joined guess string: empty cells contribute nothing to the join. -/
def completeGuessOf (s : GameState) (currentGuess : List (Option Char)) : List Char :=
  (completeCells s currentGuess).reduceOption

/-- `adjustedMaxGuesses`: a `useMemo` over the locked-letter count and
settings (bonus guess with no clue and one reveal, penalty with a clue
and two or more reveals, floor of 3). -/
def adjustedMaxGuesses (lockedCount : Nat) (revealClue : Bool) (maxGuesses : Nat) : Nat :=
  if !revealClue && lockedCount == 1 then maxGuesses + 1
  else if revealClue && 2 ≤ lockedCount then max 3 (maxGuesses - 2)
  else maxGuesses

/-- The payload handed to `recordResult` (`lib/stats` is external; the
call is fire-and-forget and does not touch the game state). -/
structure StatsPayload where
  dateISO : String
  won : Bool
  guesses : Nat
  solution : List Char
  randomPuzzle : Bool
deriving DecidableEq, Repr

/-- Everything `handleSubmit` changes: the game state, the active row, the
transient error banner, and whether/with what `recordResult` was invoked. -/
structure SubmitResult where
  state : GameState
  currentGuess : List (Option Char)
  clueError : Option String
  recordCall : Option StatsPayload
deriving DecidableEq, Repr

/-- `currentGuess` reset to only the locked positions. -/
def lockedToCurrent (locked : List (Nat × Char)) (wordLength : Nat) : List (Option Char) :=
  (List.range wordLength).map (fun i => locked.lookup i)

/-- The locked-letter update of `handleSubmit`: lock every position the
evaluation marked `correct` to its guess letter. -/
def lockCorrect (locked : List (Nat × Char)) (evaluation : List LetterStatus)
    (guess : List Char) : List (Nat × Char) :=
  (List.range evaluation.length).foldl
    (fun acc i =>
      if evaluation.getD i .absent = .correct then objInsert acc i (guess.getD i ' ')
      else acc)
    locked

/-- `handleSubmit` of `Game.tsx`: no-op unless playing; reject an
incomplete guess or one missing from the dictionary with a transient
error; otherwise evaluate, append the attempt, bump the attempt index,
lock the correct positions, settle won/lost, and (for non-archive games)
invoke `recordResult`. -/
def handleSubmit (s : GameState) (currentGuess : List (Option Char))
    (dictionary : List (List Char)) (adjMax : Nat)
    (isArchivePuzzle randomPuzzle : Bool) (todayISO : String) : SubmitResult :=
  if s.gameStatus ≠ .playing then ⟨s, currentGuess, none, none⟩
  else
    let completeGuess := completeGuessOf s currentGuess
    if ¬ validateGuess completeGuess s.wordLength then
      ⟨s, currentGuess, some "Please enter a complete word", none⟩
    else if completeGuess ∉ dictionary then
      ⟨s, lockedToCurrent s.lockedLetters s.wordLength, some "Not in dictionary", none⟩
    else
      let evaluation := evaluateGuess completeGuess s.secretWord
      let isWin := evaluation.all (fun st => st == .correct)
      let newLocked := lockCorrect s.lockedLetters evaluation completeGuess
      let newAttempts := if s.attempts = [] then [completeGuess] else s.attempts ++ [completeGuess]
      let nextAttemptIndex := s.attemptIndex + 1
      let newStatus : GameStatus :=
        if isWin then .won
        else if adjMax ≤ nextAttemptIndex then .lost
        else .playing
      let payload : Option StatsPayload :=
        if isArchivePuzzle then none
        else some
          { dateISO := todayISO
            won := isWin
            guesses := if isWin then s.attemptIndex + 1 else adjMax
            solution := s.secretWord
            randomPuzzle := randomPuzzle }
      ⟨{ s with
          attempts := newAttempts
          attemptIndex := nextAttemptIndex
          lockedLetters := newLocked
          gameStatus := newStatus },
        lockedToCurrent newLocked s.wordLength, none, payload⟩

/-- The eligible positions of `handleRevealLetter`: neither locked nor
already lifeline-revealed. -/
def unrevealedPositions (s : GameState) : List Nat :=
  (List.range s.wordLength).filter
    (fun i => (s.lockedLetters.lookup i).isNone && !(s.revealedLetters.contains i))

/-- JS `new Set(Array.from(prev).concat(x))`: append, deduplicated. -/
def setInsert (l : List Nat) (x : Nat) : List Nat :=
  if x ∈ l then l else l ++ [x]

/-- `handleRevealLetter` of `Game.tsx`: a no-op when the reveal budget is
exhausted, the game is over, or no position is eligible; otherwise reveal
one eligible position (chosen by the random draw `rand`) and decrement
the budget.  `rand` stands for `Math.floor(Math.random() * len)`, reduced
mod the number of eligible positions. -/
def handleRevealLetter (s : GameState) (rand : Nat) : GameState :=
  if s.letterRevealsRemaining ≤ 0 ∨ s.gameStatus ≠ .playing then s
  else
    let eligible := unrevealedPositions s
    if eligible = [] then s
    else
      let randomPosition := eligible.getD (rand % eligible.length) 0
      { s with
          revealedLetters := setInsert s.revealedLetters randomPosition
          letterRevealsRemaining := s.letterRevealsRemaining - 1 }

/-! ### Alignment of the joined guess with the row cells -/

theorem reduceOption_full {α : Type} (cells : List (Option α))
    (h : cells.reduceOption.length = cells.length) :
    cells = cells.reduceOption.map some := by
  induction cells with
  | nil => rfl
  | cons o rest ih =>
    cases o with
    | none =>
      exfalso
      have hle := List.reduceOption_length_le rest
      rw [List.reduceOption_cons_of_none, List.length_cons] at h
      omega
    | some a =>
      rw [List.reduceOption_cons_of_some, List.length_cons, List.length_cons,
        Nat.add_right_cancel_iff] at h
      rw [List.reduceOption_cons_of_some, List.map_cons, ← ih h]

theorem completeCells_length (s : GameState) (cg : List (Option Char)) :
    (completeCells s cg).length = s.wordLength := by
  simp [completeCells]

/-- When the joined guess is complete (full length), each row cell holds
exactly the guess letter at its position. -/
theorem complete_align (s : GameState) (cg : List (Option Char))
    (h : validateGuess (completeGuessOf s cg) s.wordLength = true)
    (i : Nat) (hi : i < s.wordLength) :
    (s.lockedLetters.lookup i).or (cg.getD i none)
      = some ((completeGuessOf s cg).getD i ' ') := by
  have hlen_guess : (completeGuessOf s cg).length = s.wordLength := by
    simpa [validateGuess] using h
  have hfull : completeCells s cg = (completeGuessOf s cg).map some := by
    apply reduceOption_full
    have : (completeCells s cg).reduceOption = completeGuessOf s cg := rfl
    rw [this, hlen_guess, completeCells_length]
  have hi2 : i < (completeGuessOf s cg).length := by rw [hlen_guess]; exact hi
  have h1 : (completeCells s cg)[i]?
      = some ((s.lockedLetters.lookup i).or (cg.getD i none)) := by
    rw [completeCells, List.getElem?_map, List.getElem?_range hi]
    rfl
  have hsome : (completeGuessOf s cg)[i]? = some ((completeGuessOf s cg).getD i ' ') := by
    rw [List.getD_eq_getElem?_getD, List.getElem?_eq_getElem hi2]
    rfl
  have h2 : (completeCells s cg)[i]?
      = some (some ((completeGuessOf s cg).getD i ' ')) := by
    rw [hfull, List.getElem?_map, hsome]
    rfl
  exact Option.some.inj (h1.symm.trans h2)

theorem evaluateGuess_length_le (guess secret : List Char) :
    (evaluateGuess guess secret).length ≤ guess.length := by
  rw [evaluateGuess, evalPass_length, List.length_zip]
  omega

/-! ### Lemmas on the locking fold of handleSubmit -/

theorem foldl_lock_preserve (R : List Nat) (ev : List LetterStatus) (g : List Char)
    (l : List (Nat × Char)) (i : Nat) (c : Char)
    (h : l.lookup i = some c)
    (hf : g.getD i ' ' = c) :
    ((R.foldl
        (fun acc j =>
          if ev.getD j .absent = .correct then objInsert acc j (g.getD j ' ') else acc)
        l).lookup i) = some c := by
  induction R generalizing l with
  | nil => exact h
  | cons j R ih =>
    simp only [List.foldl_cons]
    by_cases hj : ev.getD j .absent = .correct
    · rw [if_pos hj]
      by_cases hij : j = i
      · subst hij
        apply ih
        rw [lookup_objInsert_self, hf]
      · apply ih
        rw [lookup_objInsert_ne _ _ _ _ (fun e => hij e.symm)]
        exact h
    · rw [if_neg hj]
      exact ih l h

theorem foldl_lock_set (R : List Nat) (ev : List LetterStatus) (g : List Char)
    (l : List (Nat × Char)) (i : Nat)
    (hmem : i ∈ R) (hP : ev.getD i .absent = .correct) :
    ((R.foldl
        (fun acc j =>
          if ev.getD j .absent = .correct then objInsert acc j (g.getD j ' ') else acc)
        l).lookup i) = some (g.getD i ' ') := by
  induction R generalizing l with
  | nil => cases hmem
  | cons j R ih =>
    simp only [List.foldl_cons]
    by_cases hij : j = i
    · subst hij
      rw [if_pos hP]
      exact foldl_lock_preserve R ev g _ j _ (lookup_objInsert_self l j _) rfl
    · have hmem' : i ∈ R := by
        cases hmem with
        | head => exact absurd rfl hij
        | tail _ hm => exact hm
      by_cases hj : ev.getD j .absent = .correct
      · rw [if_pos hj]
        exact ih _ hmem'
      · rw [if_neg hj]
        exact ih l hmem'

theorem foldl_lock_untouched (R : List Nat) (ev : List LetterStatus) (g : List Char)
    (l : List (Nat × Char)) (i : Nat)
    (h : ∀ j ∈ R, j = i → ev.getD j .absent ≠ .correct) :
    ((R.foldl
        (fun acc j =>
          if ev.getD j .absent = .correct then objInsert acc j (g.getD j ' ') else acc)
        l).lookup i) = l.lookup i := by
  induction R generalizing l with
  | nil => rfl
  | cons j R ih =>
    simp only [List.foldl_cons]
    have hR : ∀ j ∈ R, j = i → ev.getD j .absent ≠ .correct :=
      fun j' hj' => h j' (List.mem_cons_of_mem _ hj')
    by_cases hj : ev.getD j .absent = .correct
    · rw [if_pos hj]
      have hij : i ≠ j := fun e => h j (List.mem_cons_self _ _) e.symm hj
      rw [ih _ hR, lookup_objInsert_ne _ _ _ _ hij]
    · rw [if_neg hj]
      exact ih l hR

theorem foldl_lock_length (R : List Nat) (ev : List LetterStatus) (g : List Char)
    (l : List (Nat × Char)) :
    l.length ≤ (R.foldl
        (fun acc j =>
          if ev.getD j .absent = .correct then objInsert acc j (g.getD j ' ') else acc)
        l).length := by
  induction R generalizing l with
  | nil => exact Nat.le_refl _
  | cons j R ih =>
    simp only [List.foldl_cons]
    by_cases hj : ev.getD j .absent = .correct
    · rw [if_pos hj]
      exact Nat.le_trans (length_le_objInsert l j _) (ih _)
    · rw [if_neg hj]
      exact ih l

/-! ### The valid-submission branch, characterised once -/

theorem handleSubmit_valid_eq (s : GameState) (cur : List (Option Char))
    (dict : List (List Char)) (adjMax : Nat) (isArchive randomPuzzle : Bool)
    (today : String)
    (hplay : s.gameStatus = .playing)
    (hval : validateGuess (completeGuessOf s cur) s.wordLength = true)
    (hdict : completeGuessOf s cur ∈ dict) :
    handleSubmit s cur dict adjMax isArchive randomPuzzle today =
      ⟨{ s with
          attempts :=
            if s.attempts = [] then [completeGuessOf s cur]
            else s.attempts ++ [completeGuessOf s cur]
          attemptIndex := s.attemptIndex + 1
          lockedLetters :=
            lockCorrect s.lockedLetters
              (evaluateGuess (completeGuessOf s cur) s.secretWord) (completeGuessOf s cur)
          gameStatus :=
            if (evaluateGuess (completeGuessOf s cur) s.secretWord).all
                (fun st => st == .correct) then .won
            else if adjMax ≤ s.attemptIndex + 1 then .lost
            else .playing },
        lockedToCurrent
          (lockCorrect s.lockedLetters
            (evaluateGuess (completeGuessOf s cur) s.secretWord) (completeGuessOf s cur))
          s.wordLength,
        none,
        if isArchive then none
        else some
          { dateISO := today
            won := (evaluateGuess (completeGuessOf s cur) s.secretWord).all
              (fun st => st == .correct)
            guesses :=
              if (evaluateGuess (completeGuessOf s cur) s.secretWord).all
                  (fun st => st == .correct) then s.attemptIndex + 1
              else adjMax
            solution := s.secretWord
            randomPuzzle := randomPuzzle }⟩ := by
  rw [handleSubmit, if_neg (fun h => h hplay)]
  simp only []
  rw [if_neg (not_not_intro hval), if_neg (not_not_intro hdict)]

/-- C1: a valid submission while playing appends the complete guess to the
attempts, increments the attempt index by one, locks every position the
evaluation marks `correct` (leaving other positions untouched), and sets
the status to won when all positions are correct, to lost when the new
attempt index reaches the (adjusted) max-guess bound, and to playing
otherwise. -/
theorem claim_C1_submit_valid_guess (s : GameState) (cur : List (Option Char))
    (dict : List (List Char)) (adjMax : Nat) (isArchive randomPuzzle : Bool)
    (today : String)
    (hplay : s.gameStatus = .playing)
    (hval : validateGuess (completeGuessOf s cur) s.wordLength = true)
    (hdict : completeGuessOf s cur ∈ dict) :
    (handleSubmit s cur dict adjMax isArchive randomPuzzle today).state.attempts
        = s.attempts ++ [completeGuessOf s cur]
    ∧ (handleSubmit s cur dict adjMax isArchive randomPuzzle today).state.attemptIndex
        = s.attemptIndex + 1
    ∧ (∀ i, i < (evaluateGuess (completeGuessOf s cur) s.secretWord).length →
        (evaluateGuess (completeGuessOf s cur) s.secretWord).getD i .absent = .correct →
        (handleSubmit s cur dict adjMax isArchive randomPuzzle today).state.lockedLetters.lookup i
          = some ((completeGuessOf s cur).getD i ' '))
    ∧ (∀ i, (i < (evaluateGuess (completeGuessOf s cur) s.secretWord).length →
          (evaluateGuess (completeGuessOf s cur) s.secretWord).getD i .absent ≠ .correct) →
        (handleSubmit s cur dict adjMax isArchive randomPuzzle today).state.lockedLetters.lookup i
          = s.lockedLetters.lookup i)
    ∧ ((∀ st ∈ evaluateGuess (completeGuessOf s cur) s.secretWord, st = .correct) →
        (handleSubmit s cur dict adjMax isArchive randomPuzzle today).state.gameStatus = .won)
    ∧ (¬ (∀ st ∈ evaluateGuess (completeGuessOf s cur) s.secretWord, st = .correct) →
        adjMax ≤ s.attemptIndex + 1 →
        (handleSubmit s cur dict adjMax isArchive randomPuzzle today).state.gameStatus = .lost)
    ∧ (¬ (∀ st ∈ evaluateGuess (completeGuessOf s cur) s.secretWord, st = .correct) →
        s.attemptIndex + 1 < adjMax →
        (handleSubmit s cur dict adjMax isArchive randomPuzzle today).state.gameStatus
          = .playing) := by
  rw [handleSubmit_valid_eq s cur dict adjMax isArchive randomPuzzle today hplay hval hdict]
  have hall : (evaluateGuess (completeGuessOf s cur) s.secretWord).all
      (fun st => st == .correct) = true
      ↔ ∀ st ∈ evaluateGuess (completeGuessOf s cur) s.secretWord, st = .correct := by
    simp [List.all_eq_true]
  refine ⟨?_, rfl, ?_, ?_, ?_, ?_, ?_⟩
  · cases s.attempts <;> simp
  · intro i hi hcor
    exact foldl_lock_set _ _ _ _ i (List.mem_range.mpr hi) hcor
  · intro i hnc
    exact foldl_lock_untouched _ _ _ _ i
      (fun j hj hji => by subst hji; exact hnc (List.mem_range.mp hj))
  · intro hwin
    simp only [if_pos (hall.mpr hwin)]
  · intro hnw hreach
    rw [if_neg (fun h => hnw (hall.mp h)), if_pos hreach]
  · intro hnw hless
    rw [if_neg (fun h => hnw (hall.mp h)), if_neg (Nat.not_le.mpr hless)]

/-- Witness for C1: secret CRANE, guess CRANE in a fresh 5-letter game. -/
theorem claim_C1_submit_valid_guess_witness :
    ({ initGameState 5 with secretWord := "CRANE".toList } : GameState).gameStatus = .playing
    ∧ (handleSubmit { initGameState 5 with secretWord := "CRANE".toList }
        ("CRANE".toList.map some) ["CRANE".toList] 6 false false "2025-01-01").state.attempts
        = [] ++ [completeGuessOf { initGameState 5 with secretWord := "CRANE".toList }
            ("CRANE".toList.map some)] := by
  have h := claim_C1_submit_valid_guess
    { initGameState 5 with secretWord := "CRANE".toList }
    ("CRANE".toList.map some) ["CRANE".toList] 6 false false "2025-01-01"
    (by decide) (by decide) (by decide)
  exact ⟨rfl, h.1⟩

/-- C3: an incomplete or out-of-dictionary submission while playing is
non-fatal: the game state (attempts, attempt index, locked letters,
revealed letters, status) is unchanged, only a transient error message is
set, and no stats call is made. -/
theorem claim_C3_invalid_guess_nonfatal (s : GameState) (cur : List (Option Char))
    (dict : List (List Char)) (adjMax : Nat) (isArchive randomPuzzle : Bool)
    (today : String)
    (hplay : s.gameStatus = .playing)
    (hbad : validateGuess (completeGuessOf s cur) s.wordLength = false
            ∨ completeGuessOf s cur ∉ dict) :
    (handleSubmit s cur dict adjMax isArchive randomPuzzle today).state = s
    ∧ (handleSubmit s cur dict adjMax isArchive randomPuzzle today).clueError.isSome = true
    ∧ (handleSubmit s cur dict adjMax isArchive randomPuzzle today).recordCall = none := by
  rw [handleSubmit, if_neg (fun h => h hplay)]
  simp only []
  by_cases hv : validateGuess (completeGuessOf s cur) s.wordLength = true
  · have hnd : completeGuessOf s cur ∉ dict := by
      rcases hbad with hb | hb
      · rw [hv] at hb
        cases hb
      · exact hb
    rw [if_neg (not_not_intro hv), if_pos hnd]
    exact ⟨rfl, rfl, rfl⟩
  · rw [if_pos hv]
    exact ⟨rfl, rfl, rfl⟩

/-- Witness for C3: submitting the out-of-dictionary guess SLATE. -/
theorem claim_C3_invalid_guess_nonfatal_witness :
    (handleSubmit { initGameState 5 with secretWord := "CRANE".toList }
        ("SLATE".toList.map some) ["CRANE".toList] 6 false false "2025-01-01").state
      = { initGameState 5 with secretWord := "CRANE".toList } :=
  (claim_C3_invalid_guess_nonfatal { initGameState 5 with secretWord := "CRANE".toList }
    ("SLATE".toList.map some) ["CRANE".toList] 6 false false "2025-01-01"
    (by decide) (by decide)).1

/-! ### Locked letters are monotone across submissions -/

/-- A whole sequence of `handleSubmit` calls (each with its own typed
row), folded through the game state. -/
def playGuesses (s : GameState) (inputs : List (List (Option Char)))
    (dict : List (List Char)) (adjMax : Nat) (isArchive randomPuzzle : Bool)
    (today : String) : GameState :=
  inputs.foldl
    (fun st cur => (handleSubmit st cur dict adjMax isArchive randomPuzzle today).state) s

theorem handleSubmit_locked_preserve (s : GameState) (cur : List (Option Char))
    (dict : List (List Char)) (adjMax : Nat) (isArchive randomPuzzle : Bool)
    (today : String) (i : Nat) (c : Char)
    (h : s.lockedLetters.lookup i = some c) :
    (handleSubmit s cur dict adjMax isArchive randomPuzzle today).state.lockedLetters.lookup i
      = some c := by
  rw [handleSubmit]
  split
  · exact h
  · next hplay =>
    simp only []
    split
    · exact h
    · next hval =>
      split
      · exact h
      · have hv : validateGuess (completeGuessOf s cur) s.wordLength = true :=
          Decidable.not_not.mp hval
        simp only [lockCorrect]
        by_cases hi : i < s.wordLength
        · have halign := complete_align s cur hv i hi
          rw [h, Option.or_some] at halign
          exact foldl_lock_preserve _ _ _ _ i c h (Option.some.inj halign).symm
        · have hlen : (completeGuessOf s cur).length = s.wordLength := by
            simpa [validateGuess] using hv
          have hev : (evaluateGuess (completeGuessOf s cur) s.secretWord).length
              ≤ s.wordLength := by
            have := evaluateGuess_length_le (completeGuessOf s cur) s.secretWord
            omega
          refine (foldl_lock_untouched _ _ _ _ i ?_).trans h
          intro j hj hji
          exfalso
          rw [List.mem_range] at hj
          omega

theorem handleSubmit_locked_length (s : GameState) (cur : List (Option Char))
    (dict : List (List Char)) (adjMax : Nat) (isArchive randomPuzzle : Bool)
    (today : String) :
    s.lockedLetters.length
      ≤ (handleSubmit s cur dict adjMax isArchive randomPuzzle today).state.lockedLetters.length := by
  rw [handleSubmit]
  split
  · exact Nat.le_refl _
  · simp only []
    split
    · exact Nat.le_refl _
    · split
      · exact Nat.le_refl _
      · simp only [lockCorrect]
        exact foldl_lock_length _ _ _ _

/-- C4: across any sequence of submissions, a locked position keeps its
letter forever, the number of locked positions never decreases, and
re-locking a position with its current letter leaves the map unchanged. -/
theorem claim_C4_locked_monotone :
    (∀ (s : GameState) (inputs : List (List (Option Char))) (dict : List (List Char))
        (adjMax : Nat) (isArchive randomPuzzle : Bool) (today : String) (i : Nat) (c : Char),
      s.lockedLetters.lookup i = some c →
      (playGuesses s inputs dict adjMax isArchive randomPuzzle today).lockedLetters.lookup i
        = some c)
    ∧ (∀ (s : GameState) (inputs : List (List (Option Char))) (dict : List (List Char))
        (adjMax : Nat) (isArchive randomPuzzle : Bool) (today : String),
      s.lockedLetters.length
        ≤ (playGuesses s inputs dict adjMax isArchive randomPuzzle today).lockedLetters.length)
    ∧ (∀ (l : List (Nat × Char)) (i : Nat) (c : Char),
      l.lookup i = some c → objInsert l i c = l) := by
  refine ⟨?_, ?_, objInsert_lookup_eq_self⟩
  · intro s inputs dict adjMax isArchive randomPuzzle today i c h
    induction inputs generalizing s with
    | nil => exact h
    | cons cur rest ih =>
      exact ih _ (handleSubmit_locked_preserve s cur dict adjMax isArchive randomPuzzle today i c h)
  · intro s inputs dict adjMax isArchive randomPuzzle today
    induction inputs generalizing s with
    | nil => exact Nat.le_refl _
    | cons cur rest ih =>
      exact Nat.le_trans
        (handleSubmit_locked_length s cur dict adjMax isArchive randomPuzzle today) (ih _)

/-- Witness for C4: a game with position 0 locked to C keeps that lock
through a submission, and re-locking 0 with C changes nothing. -/
theorem claim_C4_locked_monotone_witness :
    (playGuesses
        { initGameState 5 with secretWord := "CRANE".toList, lockedLetters := [(0, 'C')] }
        ["CRANE".toList.map some] ["CRANE".toList] 6 false false
        "2025-01-01").lockedLetters.lookup 0 = some 'C'
    ∧ objInsert [(0, 'C')] 0 'C' = [(0, 'C')] :=
  ⟨claim_C4_locked_monotone.1
      { initGameState 5 with secretWord := "CRANE".toList, lockedLetters := [(0, 'C')] }
      ["CRANE".toList.map some] ["CRANE".toList] 6 false false "2025-01-01" 0 'C' (by decide),
    claim_C4_locked_monotone.2.2 [(0, 'C')] 0 'C' (by decide)⟩

/-! ### The lifeline reveal -/

theorem mem_unrevealedPositions (s : GameState) (i : Nat) :
    i ∈ unrevealedPositions s
      ↔ i < s.wordLength ∧ s.lockedLetters.lookup i = none ∧ i ∉ s.revealedLetters := by
  simp [unrevealedPositions, List.mem_filter, List.mem_range, Option.isNone_iff_eq_none,
    and_assoc]

theorem getD_mem_of_lt {α : Type} (l : List α) (n : Nat) (d : α)
    (hn : n < l.length) : l.getD n d ∈ l := by
  have : l.getD n d = l.get ⟨n, hn⟩ := by
    rw [List.getD_eq_getElem?_getD, List.getElem?_eq_getElem hn]
    rfl
  rw [this]
  exact List.get_mem l n hn

theorem handleSubmit_budget (s : GameState) (cur : List (Option Char))
    (dict : List (List Char)) (adjMax : Nat) (isArchive randomPuzzle : Bool)
    (today : String) :
    (handleSubmit s cur dict adjMax isArchive randomPuzzle today).state.letterRevealsRemaining
      = s.letterRevealsRemaining := by
  rw [handleSubmit]
  split
  · rfl
  · simp only []
    split
    · rfl
    · split <;> rfl

/-- C5: the lifeline reveal is a no-op when the budget is exhausted, the
game is over, or no position is eligible; otherwise it reveals exactly one
eligible position and decrements the budget by one.  The budget starts at
1 and is never replenished (neither reveal nor submission increases it),
so calls beyond the budget have no further effect. -/
theorem claim_C5_lifeline_reveal :
    (∀ (s : GameState) (rand : Nat),
      s.letterRevealsRemaining ≤ 0 ∨ s.gameStatus ≠ .playing ∨ unrevealedPositions s = [] →
      handleRevealLetter s rand = s)
    ∧ (∀ (s : GameState) (rand : Nat),
      0 < s.letterRevealsRemaining → s.gameStatus = .playing → unrevealedPositions s ≠ [] →
      ∃ p, p < s.wordLength ∧ s.lockedLetters.lookup p = none ∧ p ∉ s.revealedLetters
        ∧ (handleRevealLetter s rand).revealedLetters = s.revealedLetters ++ [p]
        ∧ (handleRevealLetter s rand).letterRevealsRemaining = s.letterRevealsRemaining - 1)
    ∧ (∀ wordLength : Nat, (initGameState wordLength).letterRevealsRemaining = 1)
    ∧ (∀ (s : GameState) (rand : Nat),
      (handleRevealLetter s rand).letterRevealsRemaining ≤ s.letterRevealsRemaining)
    ∧ (∀ (s : GameState) (cur : List (Option Char)) (dict : List (List Char))
        (adjMax : Nat) (isArchive randomPuzzle : Bool) (today : String),
      (handleSubmit s cur dict adjMax isArchive randomPuzzle today).state.letterRevealsRemaining
        = s.letterRevealsRemaining) := by
  refine ⟨?_, ?_, fun _ => rfl, ?_, handleSubmit_budget⟩
  · intro s rand h
    rcases h with h | h | h
    · rw [handleRevealLetter, if_pos (Or.inl h)]
    · rw [handleRevealLetter, if_pos (Or.inr h)]
    · rw [handleRevealLetter]
      split
      · rfl
      · simp only [h]
        rfl
  · intro s rand hbudget hplay helig
    have hcond : ¬ (s.letterRevealsRemaining ≤ 0 ∨ s.gameStatus ≠ .playing) := by
      rintro (h | h)
      · omega
      · exact h hplay
    have hlen : 0 < (unrevealedPositions s).length := List.length_pos.mpr helig
    have hmod : rand % (unrevealedPositions s).length < (unrevealedPositions s).length :=
      Nat.mod_lt _ hlen
    have hmem : (unrevealedPositions s).getD (rand % (unrevealedPositions s).length) 0
        ∈ unrevealedPositions s :=
      getD_mem_of_lt _ _ _ hmod
    rw [mem_unrevealedPositions] at hmem
    obtain ⟨hlt, hlock, hrev⟩ := hmem
    refine ⟨(unrevealedPositions s).getD (rand % (unrevealedPositions s).length) 0,
      hlt, hlock, hrev, ?_, ?_⟩
    · rw [handleRevealLetter, if_neg hcond]
      simp only [if_neg helig]
      rw [setInsert, if_neg hrev]
    · rw [handleRevealLetter, if_neg hcond]
      simp only [if_neg helig]
  · intro s rand
    rw [handleRevealLetter]
    split
    · exact Int.le_refl _
    · simp only []
      split
      · exact Int.le_refl _
      · simp only []
        omega

/-- Witness for C5: in a fresh two-letter game the lifeline reveals one
position and uses up the budget; a second call is a no-op. -/
theorem claim_C5_lifeline_reveal_witness :
    (∃ p, p < ({ initGameState 2 with secretWord := "AB".toList } : GameState).wordLength
      ∧ ({ initGameState 2 with secretWord := "AB".toList } : GameState).lockedLetters.lookup p
          = none
      ∧ p ∉ ({ initGameState 2 with secretWord := "AB".toList } : GameState).revealedLetters
      ∧ (handleRevealLetter { initGameState 2 with secretWord := "AB".toList } 0).revealedLetters
          = ({ initGameState 2 with secretWord := "AB".toList } : GameState).revealedLetters ++ [p]
      ∧ (handleRevealLetter { initGameState 2 with secretWord := "AB".toList } 0).letterRevealsRemaining
          = ({ initGameState 2 with secretWord := "AB".toList } : GameState).letterRevealsRemaining - 1)
    ∧ handleRevealLetter
        { initGameState 2 with secretWord := "AB".toList, letterRevealsRemaining := 0 } 0
      = { initGameState 2 with secretWord := "AB".toList, letterRevealsRemaining := 0 } :=
  ⟨claim_C5_lifeline_reveal.2.1 { initGameState 2 with secretWord := "AB".toList } 0
      (by decide) (by decide) (by decide),
    claim_C5_lifeline_reveal.1
      { initGameState 2 with secretWord := "AB".toList, letterRevealsRemaining := 0 } 0
      (Or.inl (by decide))⟩

/-! ### When recordResult is invoked -/

/-- C8 (amended): `recordResult` is invoked exactly on a valid submission
of a non-archive game — including random-mode games, whose flag is merely
passed along in the payload — and is fire-and-forget (the payload does not
feed back into the game state). -/
theorem claim_C8_record_call (s : GameState) (cur : List (Option Char))
    (dict : List (List Char)) (adjMax : Nat) (isArchive randomPuzzle : Bool)
    (today : String) :
    (handleSubmit s cur dict adjMax isArchive randomPuzzle today).recordCall.isSome = true
      ↔ s.gameStatus = .playing
        ∧ validateGuess (completeGuessOf s cur) s.wordLength = true
        ∧ completeGuessOf s cur ∈ dict
        ∧ isArchive = false := by
  by_cases hplay : s.gameStatus = .playing
  · by_cases hval : validateGuess (completeGuessOf s cur) s.wordLength = true
    · by_cases hdict : completeGuessOf s cur ∈ dict
      · rw [handleSubmit_valid_eq s cur dict adjMax isArchive randomPuzzle today hplay hval hdict]
        cases isArchive <;> simp [hplay, hval, hdict]
      · rw [handleSubmit, if_neg (fun h => h hplay)]
        simp only []
        rw [if_neg (not_not_intro hval), if_pos hdict]
        simp [hdict]
    · rw [handleSubmit, if_neg (fun h => h hplay)]
      simp only []
      rw [if_pos hval]
      simp [hval]
  · rw [handleSubmit, if_pos hplay]
    simp [hplay]

/-- Counterexample to C8 as stated: a valid submission in a random-mode,
non-archive game does invoke `recordResult` (with `randomPuzzle := true`
in its payload), so the call is not restricted to non-random games. -/
theorem claim_C8_record_call_counterexample :
    ((handleSubmit { initGameState 5 with secretWord := "CRANE".toList }
        ("CRANE".toList.map some) ["CRANE".toList] 6 false true
        "2025-01-01").recordCall.map (fun p => p.randomPuzzle)) = some true := by
  decide

/-! ### Persistence (save / restore of `wordibble-puzzle-state`)

The save and restore effects of `part_000`.  Keys of `lockedLetters` are
coerced to strings by JSON/localStorage and parsed back with
`parseInt(key, 10)` on both save and restore; since `parseInt ∘ toString`
is the identity on naturals, the snapshot keeps `Nat` keys here.
`JSON.stringify` turns the `revealedLetters` `Set` into `{}`, so the
stored representation is always empty and `Object.values` yields `[]` on
restore. -/

/-- The stored shape of the puzzle state. -/
structure Snapshot where
  wordLength : Nat
  secretWord : List Char
  clue : Option String
  attempts : List (List Char)
  lockedLetters : List (Nat × Char)
  gameStatus : GameStatus
  attemptIndex : Nat
  revealedLetters : List Nat
  letterRevealsRemaining : Int
  date : String
  currentGuess : List (Option Char)
deriving DecidableEq, Repr

/-- The full-solution locked map
`Object.fromEntries(Array.from({length}, (_, i) => [i, secretWord[i]]))`. -/
def solutionLocked (wordLength : Nat) (secret : List Char) : List (Nat × Char) :=
  (List.range wordLength).filterMap (fun i => (secret[i]?).map (fun c => (i, c)))

/-- The save effect: runs only when a secret word is loaded (and the game
is neither random nor archive); for won games the stored locked map is
replaced by the full solution. -/
def savePuzzleState (s : GameState) (currentGuess : List (Option Char))
    (today : String) : Snapshot :=
  let finalLockedLetters :=
    if s.gameStatus = .won ∧ s.secretWord ≠ [] then solutionLocked s.wordLength s.secretWord
    else s.lockedLetters
  { wordLength := s.wordLength
    secretWord := s.secretWord
    clue := s.clue
    attempts := s.attempts
    lockedLetters := finalLockedLetters
    gameStatus := s.gameStatus
    attemptIndex := s.attemptIndex
    revealedLetters := []
    letterRevealsRemaining := s.letterRevealsRemaining
    date := today
    currentGuess := currentGuess }

/-- What the restore effect produces: the restored state and active row
(when any), and whether the snapshot / completed flag were removed. -/
structure RestoreOutcome where
  restored : Option GameState
  currentGuess : Option (List (Option Char))
  removedState : Bool
  removedCompleted : Bool
deriving DecidableEq, Repr

/-- The restore effect.  `stored = none`: no snapshot in storage;
`stored = some none`: a snapshot that fails to parse (the `catch` only
logs); `stored = some (some snap)`: a parsed snapshot, trusted only when
its date is today, deleted (with the completed flag) otherwise. -/
def restorePuzzleState (stored : Option (Option Snapshot)) (today : String) :
    RestoreOutcome :=
  match stored with
  | none => ⟨none, none, false, false⟩
  | some none => ⟨none, none, false, false⟩
  | some (some snap) =>
    if snap.date = today then
      let finalLockedLetters :=
        if snap.lockedLetters ≠ [] then snap.lockedLetters
        else if snap.gameStatus = .won ∧ snap.secretWord ≠ [] then
          solutionLocked snap.wordLength snap.secretWord
        else []
      let st : GameState :=
        { wordLength := snap.wordLength
          secretWord := snap.secretWord
          clue := snap.clue
          attempts := snap.attempts
          lockedLetters := finalLockedLetters
          gameStatus := snap.gameStatus
          attemptIndex := snap.attemptIndex
          revealedLetters := snap.revealedLetters
          letterRevealsRemaining := snap.letterRevealsRemaining }
      let cg :=
        if snap.gameStatus = .won then
          (List.range snap.wordLength).map (fun i => finalLockedLetters.lookup i)
        else snap.currentGuess
      ⟨some st, some cg, false, false⟩
    else ⟨none, none, true, true⟩

/-- C6 (amended): saving and restoring on the same day round-trips the
attempts and the game status always, and the locked letters whenever the
game is not yet won; for a won game the restored locked map is the full
solution map (the save path rewrites it), which coincides with the
original exactly when the original was already complete. -/
theorem claim_C6_round_trip (s : GameState) (currentGuess : List (Option Char))
    (today : String) (hsecret : s.secretWord ≠ []) :
    ∃ st, (restorePuzzleState (some (some (savePuzzleState s currentGuess today)))
        today).restored = some st
      ∧ st.attempts = s.attempts
      ∧ st.gameStatus = s.gameStatus
      ∧ (s.gameStatus ≠ .won → st.lockedLetters = s.lockedLetters)
      ∧ (s.gameStatus = .won → st.lockedLetters = solutionLocked s.wordLength s.secretWord) := by
  rw [restorePuzzleState, savePuzzleState]
  simp only []
  rw [if_pos trivial]
  by_cases hwon : s.gameStatus = .won
  · have hsave : (if s.gameStatus = GameStatus.won ∧ s.secretWord ≠ [] then
        solutionLocked s.wordLength s.secretWord else s.lockedLetters)
        = solutionLocked s.wordLength s.secretWord := if_pos ⟨hwon, hsecret⟩
    rw [hsave]
    by_cases hempty : solutionLocked s.wordLength s.secretWord = []
    · rw [if_neg (not_not_intro hempty), if_pos ⟨hwon, hsecret⟩]
      exact ⟨_, rfl, rfl, rfl, fun h => absurd hwon h, fun _ => rfl⟩
    · rw [if_pos hempty]
      exact ⟨_, rfl, rfl, rfl, fun h => absurd hwon h, fun _ => rfl⟩
  · have hsave : (if s.gameStatus = GameStatus.won ∧ s.secretWord ≠ [] then
        solutionLocked s.wordLength s.secretWord else s.lockedLetters)
        = s.lockedLetters := if_neg (fun h => hwon h.1)
    rw [hsave]
    by_cases hempty : s.lockedLetters = []
    · rw [if_neg (not_not_intro hempty), if_neg (fun h => hwon h.1)]
      exact ⟨_, rfl, rfl, rfl, fun _ => hempty.symm, fun h => absurd h hwon⟩
    · rw [if_pos hempty]
      exact ⟨_, rfl, rfl, rfl, fun _ => rfl, fun h => absurd h hwon⟩

/-- A concrete in-progress game used to witness the C6 round trip. -/
def middayState : GameState :=
  { initGameState 2 with secretWord := "AB".toList, lockedLetters := [(0, 'A')] }

/-- A freshly-won game whose locked map has not been filled in yet (the
win animation does that only after its timeout). -/
def earlyWonState : GameState :=
  { initGameState 2 with
      secretWord := "AB".toList, gameStatus := .won,
      attempts := ["AB".toList], attemptIndex := 1 }

/-- Witness for C6 on a concrete in-progress game. -/
theorem claim_C6_round_trip_witness :
    ∃ st, (restorePuzzleState (some (some (savePuzzleState middayState [] "2025-01-01")))
        "2025-01-01").restored = some st
      ∧ st.attempts = middayState.attempts
      ∧ st.gameStatus = middayState.gameStatus
      ∧ (middayState.gameStatus ≠ .won → st.lockedLetters = middayState.lockedLetters)
      ∧ (middayState.gameStatus = .won →
          st.lockedLetters = solutionLocked middayState.wordLength middayState.secretWord) :=
  claim_C6_round_trip middayState [] "2025-01-01" (by decide)

/-- Counterexample to C6 as stated: a freshly-won game whose locked map is
still empty does not get its locked map back — the save path stores the
full solution instead. -/
theorem claim_C6_round_trip_counterexample :
    ((restorePuzzleState (some (some (savePuzzleState earlyWonState [] "2025-01-01")))
        "2025-01-01").restored.map (fun st => st.lockedLetters))
      ≠ some earlyWonState.lockedLetters := by
  decide

/-- C7 (amended): a snapshot whose date is not today is dropped: restore
returns nothing and deletes both the snapshot and the completed flag; a
snapshot that fails to parse (or has an unreadable shape) also restores
nothing and never throws — but it is not deleted, the `catch` merely
logs; with no snapshot nothing happens.  In all three cases the caller
falls back to a fresh load. -/
theorem claim_C7_restore_invalidation :
    (∀ (snap : Snapshot) (today : String), snap.date ≠ today →
      restorePuzzleState (some (some snap)) today = ⟨none, none, true, true⟩)
    ∧ (∀ today : String, restorePuzzleState (some none) today = ⟨none, none, false, false⟩)
    ∧ (∀ today : String, restorePuzzleState none today = ⟨none, none, false, false⟩) := by
  refine ⟨?_, fun _ => rfl, fun _ => rfl⟩
  intro snap today hdate
  rw [restorePuzzleState, if_neg hdate]

/-- Witness for C7: yesterday's snapshot is dropped and deleted. -/
theorem claim_C7_restore_invalidation_witness :
    restorePuzzleState (some (some (savePuzzleState
        { initGameState 2 with secretWord := "AB".toList } [] "2025-01-01")))
      "2025-01-02" = ⟨none, none, true, true⟩ :=
  claim_C7_restore_invalidation.1 _ "2025-01-02" (by decide)

/-- Counterexample to C7 as stated: a snapshot that fails to parse is NOT
deleted — the restore effect's catch only logs, so the snapshot stays in
storage. -/
theorem claim_C7_restore_counterexample :
    (restorePuzzleState (some none) "2025-01-01").removedState = false := by
  rfl

/-! ### Keyboard letter states -/

/-- One step of the attempt fold in `keyboardLetterStates`: upgrade the
letter's status, never overwrite a `correct`, set `absent` only on a
letter not seen before. -/
def kbUpdate (m : Char → Option LetterStatus) (L : Char) (s : LetterStatus) :
    Char → Option LetterStatus :=
  if s = .correct ∧ m L ≠ some .correct then fun c => if c = L then some .correct else m c
  else if s = .present ∧ m L ≠ some .correct then fun c => if c = L then some .present else m c
  else if s = .absent ∧ m L = none then fun c => if c = L then some .absent else m c
  else m

/-- Seeding a locked or lifeline-revealed letter: plain assignment to
`correct`. -/
def kbSeed (m : Char → Option LetterStatus) (L : Char) : Char → Option LetterStatus :=
  fun c => if c = L then some .correct else m c

/-- `keyboardLetterStates` of `Game.tsx`: seed the locked letters as
correct, then the secret letters at lifeline-revealed positions, then fold
in every attempt's evaluation. -/
def keyboardLetterStates (locked : List (Nat × Char)) (revealed : List Nat)
    (secret : List Char) (attempts : List (List Char)) : Char → Option LetterStatus :=
  let m0 := (locked.map Prod.snd).foldl kbSeed (fun _ => none)
  let m1 := (revealed.filterMap (fun i => secret[i]?)).foldl kbSeed m0
  attempts.foldl
    (fun m att => (att.zip (evaluateGuess att secret)).foldl (fun m p => kbUpdate m p.1 p.2) m)
    m1

/-- Folding a list of (letter, status) update events. -/
def kbFold (m : Char → Option LetterStatus) (ps : List (Char × LetterStatus)) :
    Char → Option LetterStatus :=
  ps.foldl (fun m p => kbUpdate m p.1 p.2) m

/-- All the update events of `keyboardLetterStates`, flattened in code
order: locked seeds, then revealed seeds, then each attempt's evaluation. -/
def kbPairs (locked : List (Nat × Char)) (revealed : List Nat)
    (secret : List Char) (attempts : List (List Char)) : List (Char × LetterStatus) :=
  (locked.map (fun p => (p.2, LetterStatus.correct)))
    ++ (revealed.filterMap (fun i => secret[i]?)).map (fun L => (L, LetterStatus.correct))
    ++ (attempts.map (fun att => att.zip (evaluateGuess att secret))).flatten

/-- Rank of a keyboard status: `correct > present > absent > unset`. -/
def statusRank : Option LetterStatus → Nat
  | none => 0
  | some .absent => 1
  | some .present => 2
  | some .correct => 3

/-- The join (max by rank) that `kbUpdate` implements per letter. -/
def joinStatus (o : Option LetterStatus) (s : LetterStatus) : Option LetterStatus :=
  if statusRank (some s) ≤ statusRank o then o else some s

theorem kbUpdate_eq_join (m : Char → Option LetterStatus) (L : Char) (s : LetterStatus)
    (c : Char) : kbUpdate m L s c = if c = L then joinStatus (m L) s else m c := by
  rcases hm : m L with _ | st
  · cases s <;> by_cases hc : c = L <;>
      simp [kbUpdate, joinStatus, statusRank, hm, hc]
  · cases st <;> cases s <;> by_cases hc : c = L <;>
      simp [kbUpdate, joinStatus, statusRank, hm, hc]

theorem kbSeed_eq_update (m : Char → Option LetterStatus) (L : Char) :
    kbSeed m L = kbUpdate m L .correct := by
  funext c
  rw [kbSeed, kbUpdate_eq_join]
  by_cases hc : c = L
  · subst hc
    rcases hm : m c with _ | st
    · simp [joinStatus, statusRank, hm]
    · cases st <;> simp [joinStatus, statusRank, hm]
  · simp [hc]

theorem joinStatus_join_comm (o : Option LetterStatus) (a b : LetterStatus) :
    joinStatus (joinStatus o a) b = joinStatus (joinStatus o b) a := by
  rcases o with _ | st
  · cases a <;> cases b <;> rfl
  · cases st <;> cases a <;> cases b <;> rfl

theorem joinStatus_correct_left (o : Option LetterStatus) (s : LetterStatus)
    (h : o = some .correct) : joinStatus o s = some .correct := by
  subst h
  cases s <;> rfl

theorem kbUpdate_comm (m : Char → Option LetterStatus) (x y : Char × LetterStatus) :
    kbUpdate (kbUpdate m x.1 x.2) y.1 y.2 = kbUpdate (kbUpdate m y.1 y.2) x.1 x.2 := by
  funext c
  by_cases hcx : c = x.1 <;> by_cases hcy : c = y.1
  · simp only [kbUpdate_eq_join, ← hcx, ← hcy, if_pos]
    exact joinStatus_join_comm (m c) x.2 y.2
  · simp [kbUpdate_eq_join, ← hcx, hcy]
  · simp [kbUpdate_eq_join, ← hcy, hcx]
  · simp [kbUpdate_eq_join, hcx, hcy]

theorem kbFold_nil (m : Char → Option LetterStatus) : kbFold m [] = m := rfl

theorem kbFold_cons (m : Char → Option LetterStatus) (p : Char × LetterStatus)
    (ps : List (Char × LetterStatus)) :
    kbFold m (p :: ps) = kbFold (kbUpdate m p.1 p.2) ps := rfl

theorem kbFold_append (m : Char → Option LetterStatus)
    (ps qs : List (Char × LetterStatus)) :
    kbFold m (ps ++ qs) = kbFold (kbFold m ps) qs := by
  rw [kbFold, kbFold, kbFold, List.foldl_append]

theorem kbFold_perm (m : Char → Option LetterStatus) (ps qs : List (Char × LetterStatus))
    (h : ps.Perm qs) : kbFold m ps = kbFold m qs := by
  induction h generalizing m with
  | nil => rfl
  | cons x _ ih => rw [kbFold_cons, kbFold_cons, ih]
  | swap x y l => rw [kbFold_cons, kbFold_cons, kbFold_cons, kbFold_cons, kbUpdate_comm]
  | trans _ _ ih₁ ih₂ => rw [ih₁, ih₂]

theorem kbFold_correct_stays (m : Char → Option LetterStatus)
    (ps : List (Char × LetterStatus)) (c : Char) (h : m c = some .correct) :
    kbFold m ps c = some .correct := by
  induction ps generalizing m with
  | nil => exact h
  | cons p ps ih =>
    rw [kbFold_cons]
    apply ih
    rw [kbUpdate_eq_join]
    by_cases hc : c = p.1
    · rw [if_pos hc, ← hc]
      exact joinStatus_correct_left (m c) p.2 h
    · rw [if_neg hc]
      exact h

theorem seed_foldl_eq (letters : List Char) (m : Char → Option LetterStatus) :
    letters.foldl kbSeed m = kbFold m (letters.map (fun L => (L, LetterStatus.correct))) := by
  induction letters generalizing m with
  | nil => rfl
  | cons L rest ih =>
    rw [List.foldl_cons, List.map_cons, kbFold_cons, ih, kbSeed_eq_update]

theorem attempts_foldl_eq (attempts : List (List Char)) (secret : List Char)
    (m : Char → Option LetterStatus) :
    attempts.foldl
        (fun m att => (att.zip (evaluateGuess att secret)).foldl
          (fun m p => kbUpdate m p.1 p.2) m) m
      = kbFold m ((attempts.map (fun att => att.zip (evaluateGuess att secret))).flatten) := by
  induction attempts generalizing m with
  | nil => rfl
  | cons att rest ih =>
    rw [List.foldl_cons, List.map_cons, List.flatten_cons, kbFold_append, ih]
    rfl

/-- C9: `keyboardLetterStates` is the fold of all its update events
(locked seeds, lifeline seeds, attempt evaluations); that fold yields the
same letter-to-status map under any permutation of the events (so the
result is independent of the order of seeding and of the attempts); and a
letter once `correct` is never downgraded by any further folding. -/
theorem claim_C9_keyboard_aggregation :
    (∀ (locked : List (Nat × Char)) (revealed : List Nat) (secret : List Char)
        (attempts : List (List Char)),
      keyboardLetterStates locked revealed secret attempts
        = kbFold (fun _ => none) (kbPairs locked revealed secret attempts))
    ∧ (∀ (m : Char → Option LetterStatus) (ps qs : List (Char × LetterStatus)),
      ps.Perm qs → kbFold m ps = kbFold m qs)
    ∧ (∀ (m : Char → Option LetterStatus) (ps : List (Char × LetterStatus)) (c : Char),
      m c = some .correct → kbFold m ps c = some .correct) := by
  refine ⟨?_, kbFold_perm, kbFold_correct_stays⟩
  intro locked revealed secret attempts
  rw [keyboardLetterStates]
  rw [attempts_foldl_eq, seed_foldl_eq, seed_foldl_eq, kbPairs,
    kbFold_append, kbFold_append, List.map_map]
  rfl

/-- Witness for C9: swapping seed order and attempts leaves the map
unchanged, and a correct letter survives an absent event. -/
theorem claim_C9_keyboard_aggregation_witness :
    (kbFold (fun _ => none) [('A', .correct), ('B', .present)]
      = kbFold (fun _ => none) [('B', .present), ('A', .correct)])
    ∧ kbFold (fun c => if c = 'A' then some .correct else none) [('A', .absent)] 'A'
      = some .correct :=
  ⟨claim_C9_keyboard_aggregation.2.1 (fun _ => none)
      [('A', .correct), ('B', .present)] [('B', .present), ('A', .correct)] (by decide),
    claim_C9_keyboard_aggregation.2.2
      (fun c => if c = 'A' then some .correct else none) [('A', .absent)] 'A' (by decide)⟩

/-! ### The daily puzzle loader (`lib/daily.ts`) -/

/-- One entry of the unified puzzle list served by `/api/puzzles`. -/
structure PuzzleData where
  date : String
  word : String
deriving DecidableEq, Repr

/-- What `loadDailyPuzzle` resolves with. -/
structure DailyPuzzle where
  word : String
  clue : String
  isToday : Bool
deriving DecidableEq, Repr

/-- The hardcoded fallback puzzle of the catch branch. -/
def defaultPuzzle : DailyPuzzle :=
  { word := "HELLO", clue := "A friendly greeting", isToday := false }

/-- Case-agnostic clue lookup. -/
def findClue (clues : List (String × String)) (word : String) : String :=
  let normalizedWord := word.toUpper
  match clues.find? (fun kv => kv.1.toUpper == normalizedWord) with
  | some kv => kv.2
  | none => "I literally have no clue"

/-- `loadDailyPuzzle`: fetch failures are `none` responses; every throw is
caught and resolves with `defaultPuzzle`.  In random mode the server's
single puzzle (the head) is used; otherwise today's entry, falling back to
the first entry of a non-empty list. -/
def loadDailyPuzzle (puzzlesResp : Option (List PuzzleData))
    (cluesResp : String → Option (List (String × String)))
    (todayEST : String) (randomMode : Bool) : DailyPuzzle :=
  match puzzlesResp with
  | none => defaultPuzzle
  | some puzzles =>
    match
      (if randomMode then puzzles.head?
       else
        match puzzles.find? (fun p => p.date == todayEST) with
        | some p => some p
        | none => puzzles.head?) with
    | none => defaultPuzzle
    | some puzzle =>
      match cluesResp ((puzzle.date.splitOn "-").headD "") with
      | none => defaultPuzzle
      | some clues =>
        { word := puzzle.word.toUpper
          clue := findClue clues puzzle.word
          isToday := !randomMode && (puzzle.date == todayEST) }

/-- C10: `loadDailyPuzzle` never rejects — when the list has no entry for
today but is non-empty (and the clue fetch succeeds) it resolves with the
first puzzle and `isToday = false`; a failed puzzle fetch or a failed clue
fetch resolves with the hardcoded default puzzle. -/
theorem claim_C10_load_daily_fallbacks :
    (∀ (puzzles : List PuzzleData) (cluesResp : String → Option (List (String × String)))
        (today : String) (randomMode : Bool),
      puzzles ≠ [] →
      (∀ p ∈ puzzles, p.date ≠ today) →
      (∀ year, (cluesResp year).isSome = true) →
      (loadDailyPuzzle (some puzzles) cluesResp today randomMode).word
          = (puzzles.headD ⟨"", ""⟩).word.toUpper
        ∧ (loadDailyPuzzle (some puzzles) cluesResp today randomMode).isToday = false)
    ∧ (∀ (cluesResp : String → Option (List (String × String))) (today : String)
        (randomMode : Bool),
      loadDailyPuzzle none cluesResp today randomMode = defaultPuzzle)
    ∧ (∀ (puzzles : List PuzzleData) (today : String) (randomMode : Bool),
      loadDailyPuzzle (some puzzles) (fun _ => none) today randomMode = defaultPuzzle) := by
  refine ⟨?_, fun _ _ _ => rfl, ?_⟩
  · intro puzzles cluesResp today randomMode hne hdates hclues
    obtain ⟨p, rest, rfl⟩ : ∃ p rest, puzzles = p :: rest := by
      cases puzzles with
      | nil => exact absurd rfl hne
      | cons p rest => exact ⟨p, rest, rfl⟩
    have hfind : (p :: rest).find? (fun q => q.date == today) = none := by
      rw [List.find?_eq_none]
      intro x hx
      simpa using hdates x hx
    have hbeq : (p.date == today) = false :=
      beq_false_of_ne (hdates p (List.mem_cons_self p rest))
    obtain ⟨clues, hc⟩ := Option.isSome_iff_exists.mp
      (hclues ((p.date.splitOn "-").headD ""))
    cases randomMode with
    | false =>
      simp only [loadDailyPuzzle, hfind, Bool.false_eq_true, if_false, List.head?_cons, hc]
      exact ⟨rfl, by rw [hbeq, Bool.and_false]⟩
    | true =>
      simp only [loadDailyPuzzle, if_true, List.head?_cons, hc]
      exact ⟨rfl, by rw [hbeq, Bool.and_false]⟩
  · intro puzzles today randomMode
    simp only [loadDailyPuzzle]
    split
    · rfl
    · rfl

/-- Witness for C10: a one-entry list for a different day resolves with
that entry upper-cased and `isToday = false`. -/
theorem claim_C10_load_daily_fallbacks_witness :
    (loadDailyPuzzle (some [⟨"2025-01-02", "hello"⟩])
        (fun _ => some []) "2025-01-01" false).word
      = (([⟨"2025-01-02", "hello"⟩] : List PuzzleData).headD ⟨"", ""⟩).word.toUpper
    ∧ (loadDailyPuzzle (some [⟨"2025-01-02", "hello"⟩])
        (fun _ => some []) "2025-01-01" false).isToday = false :=
  claim_C10_load_daily_fallbacks.1 [⟨"2025-01-02", "hello"⟩]
    (fun _ => some []) "2025-01-01" false (by decide) (by decide) (fun _ => rfl)

end Verseword
